import Mathlib

/-!
Shallow embedding of the seeder registry and executor of `gorm-seed`
(source file `registry.go`, the package `gorm_seed` core).

Modelling conventions, fixed once for the whole development:

* A Go `error` value is observed through its message string, so an abstract
  cause is modelled as a `String` (`none` = nil error, `some c` = an error
  whose rendering via `%v` is `c`).
* A seeder's `Seed(db, deps) error` is a function `DB → Deps → Option String`
  of the opaque database handle and dependency bag; the types `DB` and `Deps`
  are parameters, since the core never inspects either value.
* The optional lifecycle callbacks of `RunOptions` are Go function pointers
  that are either nil or set; the model records presence as a `Bool` and
  records every invocation (and every `Seed` call) as an event in a trace,
  so that theorems can speak about which calls happened and in which order.
* The global registry `registry.seeders` is a `List (Seeder DB Deps)` threaded
  explicitly.  Functions that in Go read the registry under a lock are given
  a state-passing form (suffix `S`) returning the result together with the
  registry state after the call; the state component is the translation of
  what the Go body leaves in `registry.seeders`.  `GetAll` copies the slice
  into a fresh backing array (`make` + `copy`) and `sort.Slice` permutes only
  that copy, so the stored list is returned unchanged.
* Go compares strings byte-wise over their UTF-8 encoding; on valid UTF-8 this
  order coincides with the code-point lexicographic order, which is the
  lexicographic order on `String.data`, so `sort.Slice(..., Name() < Name())`
  is modelled by sorting with the comparator `nameLe`.  `sort.Slice` is an
  unstable comparison sort; `List.insertionSort` is one admissible refinement
  of it, and every property proved below depends only on sortedness and on
  the multiset of elements, never on the order of equal names.
-/

/-- Translation of the `Seeder` interface: a unique name and the seeding
operation.  `seed db deps = none` means `Seed` returned nil;
`seed db deps = some c` means it returned an error rendering as `c`. -/
structure Seeder (DB Deps : Type) where
  name : String
  seed : DB → Deps → Option String

variable {DB Deps : Type}

/-- Translation of `Register`: appends the seeder to `registry.seeders`
(Go `append` adds at the end).  It never fails. -/
def Register (s : Seeder DB Deps) (reg : List (Seeder DB Deps)) :
    List (Seeder DB Deps) :=
  reg ++ [s]

/-- Comparator used by `GetAll`'s `sort.Slice` call: Go sorts so that for
`i < j` the predicate `seeders[j].Name() < seeders[i].Name()` fails, i.e.
names ascend.  The byte-wise Go comparison is the lexicographic order on the
strings' character sequences (`String.data`), since on UTF-8 encodings the
byte-wise order agrees with the code-point order. -/
def nameLe (a b : Seeder DB Deps) : Prop :=
  a.name.data ≤ b.name.data

instance : DecidableRel (@nameLe DB Deps) :=
  fun a b => inferInstanceAs (Decidable (a.name.data ≤ b.name.data))

instance : IsTotal (Seeder DB Deps) nameLe :=
  ⟨fun a b => le_total a.name.data b.name.data⟩

instance : IsTrans (Seeder DB Deps) nameLe :=
  ⟨fun _ _ _ h h2 => le_trans h h2⟩

/-- Translation of `GetAll`: returns a copy of the registered seeders sorted
by name.  The copy (fresh backing array via `make`/`copy`) is what gets
permuted by `sort.Slice`; the registry state is untouched.  `sort.Slice` is
an unstable comparison sort; `List.insertionSort` is one admissible
refinement of it. -/
def GetAll (reg : List (Seeder DB Deps)) : List (Seeder DB Deps) :=
  reg.insertionSort nameLe

/-- State-passing form of `GetAll`: the body only read-locks, copies, and
sorts the copy, so `registry.seeders` after the call is what it was before. -/
def GetAllS (reg : List (Seeder DB Deps)) :
    List (Seeder DB Deps) × List (Seeder DB Deps) :=
  (GetAll reg, reg)

/-- Translation of `GetByName`: scan `registry.seeders` in insertion order and
return the first seeder whose name equals the argument; if the loop finishes
without a match, fail with `fmt.Errorf("seeder not found: %s", name)`. -/
def GetByName (name : String) :
    List (Seeder DB Deps) → Except String (Seeder DB Deps)
  | [] => .error ("seeder not found: " ++ name)
  | s :: rest => if s.name = name then .ok s else GetByName name rest

/-- State-passing form of `GetByName`: the body only read-locks and iterates,
leaving `registry.seeders` unchanged. -/
def GetByNameS (name : String) (reg : List (Seeder DB Deps)) :
    Except String (Seeder DB Deps) × List (Seeder DB Deps) :=
  (GetByName name reg, reg)

/-- Translation of `RunOptions`.  Each callback field of the Go struct is an
optional function pointer; only its presence matters for control flow, and
invocations are recorded in the event trace. -/
structure RunOptions where
  continueOnError : Bool
  onSeederStart : Bool
  onSeederComplete : Bool
  onSeederError : Bool

/-- Translation of `SeederError`: one seeder's failure, wrapping its cause. -/
structure SeederError where
  seederName : String
  err : String
deriving DecidableEq

/-- Translation of `SeederError.Error`:
`fmt.Sprintf("seeder %s failed: %v", e.SeederName, e.Err)`. -/
def SeederError.errorMsg (e : SeederError) : String :=
  "seeder " ++ e.seederName ++ " failed: " ++ e.err

/-- Translation of `SeederError.Unwrap`: returns the wrapped cause `e.Err`. -/
def SeederError.unwrap (e : SeederError) : String :=
  e.err

/-- Translation of `SeederErrors`: an ordered collection of seeder errors. -/
structure SeederErrors where
  errors : List SeederError
deriving DecidableEq

/-- Translation of `SeederErrors.Error`: `"no errors"` for an empty
collection, the single error's message for a singleton, and otherwise
`fmt.Sprintf("%d seeders failed: %s (and %d more)", len(e.Errors),
e.Errors[0].SeederName, len(e.Errors)-1)`. -/
def SeederErrors.errorMsg (e : SeederErrors) : String :=
  match e.errors with
  | [] => "no errors"
  | first :: rest =>
    if rest.isEmpty then
      first.errorMsg
    else
      toString (rest.length + 1) ++ " seeders failed: " ++ first.seederName ++
        " (and " ++ toString rest.length ++ " more)"

/-- Translation of `SeederErrors.Add`: appends a new `SeederError` built from
the name and cause. -/
def SeederErrors.add (e : SeederErrors) (seederName : String) (err : String) :
    SeederErrors :=
  ⟨e.errors ++ [⟨seederName, err⟩]⟩

/-- Translation of `SeederErrors.HasErrors`: `len(e.Errors) > 0`. -/
def SeederErrors.hasErrors (e : SeederErrors) : Bool :=
  decide (0 < e.errors.length)

/-- The error values this package hands to callers: a `*SeederError`, a
`*SeederErrors`, or a plain `fmt.Errorf` error (the not-found case). -/
inductive PkgError where
  | single (e : SeederError)
  | multi (es : SeederErrors)
  | plain (msg : String)

/-- Translation of Go's `errors.Unwrap` applied to this package's error
values: it calls the dynamic type's `Unwrap() error` method when one is
declared and returns nil otherwise.  `*SeederError` declares
`Unwrap() error { return e.Err }`; `*SeederErrors` declares no `Unwrap`
method at all (only `Error`, `Add`, `HasErrors`), and a plain `fmt.Errorf`
error without `%w` wraps nothing. -/
def PkgError.unwrap : PkgError → Option String
  | .single e => some e.err
  | .multi _ => none
  | .plain _ => none

/-- Observable calls made during a run: a lifecycle-callback invocation
(identified by the name the executor passes to it) or a `Seed` invocation
(identified by the seeder it is invoked on). -/
inductive Event (DB Deps : Type) where
  | start (name : String)
  | seedCall (s : Seeder DB Deps)
  | complete (name : String)
  | error (name : String) (cause : String)

/-- Result of `RunAllWithOptions`: nil, a single `*SeederError` (fail-fast
return), or the collected `*SeederErrors`. -/
inductive RunResult where
  | ok
  | single (e : SeederError)
  | multi (es : SeederErrors)
deriving DecidableEq

/-- Translation of the loop body of `RunAllWithOptions`, over the sorted
snapshot, threading the `errors` accumulator and emitting the trace of
callback and `Seed` invocations.  Per iteration: invoke `OnSeederStart` if
set, invoke `Seed`; on failure invoke `OnSeederError` if set, then either
return the `SeederError` at once (`ContinueOnError` false) or append to the
accumulator and continue; on success invoke `OnSeederComplete` if set.
After the loop, return the accumulator if it has errors, else nil. -/
def runLoop (db : DB) (deps : Deps) (opts : RunOptions) :
    List (Seeder DB Deps) → SeederErrors → List (Event DB Deps) × RunResult
  | [], errs => ([], if errs.hasErrors then .multi errs else .ok)
  | s :: rest, errs =>
    let startEv : List (Event DB Deps) :=
      if opts.onSeederStart then [.start s.name] else []
    match s.seed db deps with
    | some cause =>
      let errEv : List (Event DB Deps) :=
        if opts.onSeederError then [.error s.name cause] else []
      if !opts.continueOnError then
        (startEv ++ .seedCall s :: errEv, .single ⟨s.name, cause⟩)
      else
        let r := runLoop db deps opts rest (errs.add s.name cause)
        (startEv ++ .seedCall s :: (errEv ++ r.1), r.2)
    | none =>
      let r := runLoop db deps opts rest errs
      (startEv ++ .seedCall s ::
        ((if opts.onSeederComplete then [.complete s.name] else []) ++ r.1),
        r.2)

/-- Translation of `RunAllWithOptions`: take the sorted snapshot via
`GetAll`, start from an empty `SeederErrors`, and run the loop. -/
def RunAllWithOptions (db : DB) (deps : Deps) (opts : RunOptions)
    (reg : List (Seeder DB Deps)) : List (Event DB Deps) × RunResult :=
  runLoop db deps opts (GetAll reg) ⟨[]⟩

/-- State-passing form of `RunAllWithOptions`: the run reads the registry only
through `GetAll` (one snapshot) and never writes it. -/
def RunAllWithOptionsS (db : DB) (deps : Deps) (opts : RunOptions)
    (reg : List (Seeder DB Deps)) :
    (List (Event DB Deps) × RunResult) × List (Seeder DB Deps) :=
  (runLoop db deps opts (GetAllS reg).1 ⟨[]⟩, (GetAllS reg).2)

/-- Translation of `RunAll`: `RunAllWithOptions` with
`RunOptions{ContinueOnError: false}` (all callbacks nil, the zero value). -/
def RunAll (db : DB) (deps : Deps) (reg : List (Seeder DB Deps)) :
    List (Event DB Deps) × RunResult :=
  RunAllWithOptions db deps ⟨false, false, false, false⟩ reg

/-- State-passing form of `RunAll`. -/
def RunAllS (db : DB) (deps : Deps) (reg : List (Seeder DB Deps)) :
    (List (Event DB Deps) × RunResult) × List (Seeder DB Deps) :=
  RunAllWithOptionsS db deps ⟨false, false, false, false⟩ reg

/-- Result of `RunSpecific`: the lookup's not-found error, nil, or a
`*SeederError` wrapping the unit's cause. -/
inductive SpecificResult where
  | notFound (msg : String)
  | ok
  | failed (e : SeederError)
deriving DecidableEq

/-- Translation of `RunSpecific`: look the seeder up via `GetByName` and
return the lookup error unchanged when it fails; otherwise invoke `Seed`
once, wrapping a failure as `SeederError{SeederName: seeder.Name(), Err: err}`.
The body contains no callback invocation, so the trace holds at most the one
`Seed` call. -/
def RunSpecific (name : String) (db : DB) (deps : Deps)
    (reg : List (Seeder DB Deps)) : List (Event DB Deps) × SpecificResult :=
  match GetByName name reg with
  | .error msg => ([], .notFound msg)
  | .ok s =>
    match s.seed db deps with
    | some cause => ([.seedCall s], .failed ⟨s.name, cause⟩)
    | none => ([.seedCall s], .ok)

/-- State-passing form of `RunSpecific`: it reads the registry only through
`GetByName` and never writes it. -/
def RunSpecificS (name : String) (db : DB) (deps : Deps)
    (reg : List (Seeder DB Deps)) :
    (List (Event DB Deps) × SpecificResult) × List (Seeder DB Deps) :=
  ((RunSpecific name db deps ((GetByNameS name reg).2)), (GetByNameS name reg).2)

/-- Translation of `Clear`: resets `registry.seeders` to a fresh empty
slice. -/
def Clear (_reg : List (Seeder DB Deps)) : List (Seeder DB Deps) :=
  []

/-- Translation of `Count`: `len(registry.seeders)`. -/
def Count (reg : List (Seeder DB Deps)) : Nat :=
  reg.length

/-- State-passing form of `Count`: a read-only operation. -/
def CountS (reg : List (Seeder DB Deps)) : Nat × List (Seeder DB Deps) :=
  (Count reg, reg)

/-- One call against the package API, for reasoning about sequences of
operations on the registry. -/
inductive RegOp (DB Deps : Type) where
  | register (s : Seeder DB Deps)
  | clear
  | getAll
  | getByName (name : String)
  | count
  | runAll (db : DB) (deps : Deps)
  | runAllWithOptions (db : DB) (deps : Deps) (opts : RunOptions)
  | runSpecific (name : String) (db : DB) (deps : Deps)

/-- Registry state after one API call, using each operation's translation
(the state component of its state-passing form). -/
def applyOp : RegOp DB Deps → List (Seeder DB Deps) → List (Seeder DB Deps)
  | .register s, reg => Register s reg
  | .clear, reg => Clear reg
  | .getAll, reg => (GetAllS reg).2
  | .getByName n, reg => (GetByNameS n reg).2
  | .count, reg => (CountS reg).2
  | .runAll db deps, reg => (RunAllS db deps reg).2
  | .runAllWithOptions db deps opts, reg => (RunAllWithOptionsS db deps opts reg).2
  | .runSpecific n db deps, reg => (RunSpecificS n db deps reg).2

/-- Registry state after a sequence of API calls, applied left to right. -/
def applyOps : List (RegOp DB Deps) → List (Seeder DB Deps) → List (Seeder DB Deps)
  | [], reg => reg
  | op :: rest, reg => applyOps rest (applyOp op reg)

/-- The number of `register` calls in an operation sequence since its last
`clear` (the whole sequence when it contains no `clear`), processed left to
right with `n` registrations already standing. -/
def countSinceClear : List (RegOp DB Deps) → Nat → Nat
  | [], n => n
  | .register _ :: rest, n => countSinceClear rest (n + 1)
  | .clear :: rest, _ => countSinceClear rest 0
  | _ :: rest, n => countSinceClear rest n

/-- Events one unit contributes to a continue-mode trace (and to a fail-fast
trace while no failure has occurred up to and including this unit): the
optional start callback, the `Seed` call, then the optional error callback on
failure or the optional completion callback on success. -/
def unitEvents (db : DB) (deps : Deps) (opts : RunOptions)
    (s : Seeder DB Deps) : List (Event DB Deps) :=
  (if opts.onSeederStart then [.start s.name] else []) ++
    .seedCall s ::
      (match s.seed db deps with
       | some cause => if opts.onSeederError then [.error s.name cause] else []
       | none => if opts.onSeederComplete then [.complete s.name] else [])

/-- The failures a continue-mode run collects from a snapshot, in execution
order. -/
def failuresOf (db : DB) (deps : Deps) (l : List (Seeder DB Deps)) :
    List SeederError :=
  l.filterMap (fun s => (s.seed db deps).map (fun c => ⟨s.name, c⟩))

/-- The sequence of seeders whose `Seed` was invoked, read off a trace. -/
def seedCalls : List (Event DB Deps) → List (Seeder DB Deps)
  | [] => []
  | .seedCall s :: rest => s :: seedCalls rest
  | _ :: rest => seedCalls rest

/-- The run result `RunAllWithOptions` builds after its loop from a list of
collected failures: nil when none were collected, else the collection. -/
def mkRunResult (fs : List SeederError) : RunResult :=
  if fs.isEmpty then .ok else .multi ⟨fs⟩

/-- The names passed to `OnSeederStart`, read off a trace in order. -/
def startCalls : List (Event DB Deps) → List String
  | [] => []
  | .start n :: rest => n :: startCalls rest
  | _ :: rest => startCalls rest

/-- The names passed to `OnSeederComplete`, read off a trace in order. -/
def completeCalls : List (Event DB Deps) → List String
  | [] => []
  | .complete n :: rest => n :: completeCalls rest
  | _ :: rest => completeCalls rest

/-- The name/cause pairs passed to `OnSeederError`, read off a trace in
order. -/
def errorCalls : List (Event DB Deps) → List (String × String)
  | [] => []
  | .error n c :: rest => (n, c) :: errorCalls rest
  | _ :: rest => errorCalls rest

/-- The seeders of a snapshot whose `Seed` succeeds on the given handle and
dependency bag, in snapshot order. -/
def successesOf (db : DB) (deps : Deps) (l : List (Seeder DB Deps)) :
    List (Seeder DB Deps) :=
  l.filter (fun s => (s.seed db deps).isNone)

/-- Concrete seeder over trivial handle and dependency types: name `a`,
always succeeds.  Used to evaluate the theorems on closed inputs. -/
def sA : Seeder Unit Unit := ⟨"a", fun _ _ => none⟩

/-- Concrete seeder: name `b`, always fails with cause `boom`. -/
def sB : Seeder Unit Unit := ⟨"b", fun _ _ => some "boom"⟩

/-- Concrete seeder: a second seeder also named `b` (duplicate name, legal),
always succeeds. -/
def sB2 : Seeder Unit Unit := ⟨"b", fun _ _ => none⟩

/-- Concrete seeder: name `c`, always succeeds. -/
def sC : Seeder Unit Unit := ⟨"c", fun _ _ => none⟩

example : (GetAll ([⟨"b", fun _ _ => none⟩, ⟨"a", fun _ _ => none⟩] :
    List (Seeder Unit Unit))).map Seeder.name = ["a", "b"] := by
  decide

example : (RunAllWithOptions () () ⟨true, true, true, true⟩
    ([⟨"b", fun _ _ => some "boom"⟩, ⟨"a", fun _ _ => none⟩] :
      List (Seeder Unit Unit))).2 = .multi ⟨[⟨"b", "boom"⟩]⟩ := by
  decide

theorem getByName_error_iff (name : String) (reg : List (Seeder DB Deps)) :
    GetByName name reg = .error ("seeder not found: " ++ name) ↔
      ∀ s ∈ reg, s.name ≠ name := by
  induction reg with
  | nil => simp [GetByName]
  | cons s rest ih =>
    by_cases h : s.name = name
    · simp [GetByName, h]
    · simp [GetByName, h, ih]

theorem getByName_found {name : String} (pre : List (Seeder DB Deps))
    (u : Seeder DB Deps) (post : List (Seeder DB Deps)) (hu : u.name = name)
    (hpre : ∀ s ∈ pre, s.name ≠ name) :
    GetByName name (pre ++ u :: post) = .ok u := by
  induction pre with
  | nil => simp [GetByName, hu]
  | cons p pre ih =>
    have hp : p.name ≠ name := hpre p (by simp)
    simp only [List.cons_append, GetByName]
    rw [if_neg hp]
    exact ih (fun s hs => hpre s (List.mem_cons_of_mem _ hs))

/-- C3: `GetAll` returns exactly the registered units (duplicates of a name
included) as a permutation of the stored sequence ordered by ascending name,
whatever the registration order, and it leaves the live storage untouched:
the sort happens on the copy, and the registry state after the call is the
insertion-ordered list it held before. -/
theorem getAll_spec (reg : List (Seeder DB Deps)) :
    (GetAll reg).Perm reg
    ∧ (GetAll reg).Pairwise (fun a b => a.name ≤ b.name)
    ∧ GetAllS reg = (GetAll reg, reg) := by
  refine ⟨List.perm_insertionSort _ _, ?_, rfl⟩
  have h := List.sorted_insertionSort (α := Seeder DB Deps) nameLe reg
  exact List.Pairwise.imp (fun hab => String.le_iff_toList_le.mpr hab) h

/-- C4: `GetByName` returns the not-found error exactly when no registered
unit has the requested name, and otherwise returns the earliest-registered
(insertion-order-first, not sorted-order-first) unit with that name. -/
theorem getByName_spec (name : String) (reg : List (Seeder DB Deps)) :
    (GetByName name reg = .error ("seeder not found: " ++ name) ↔
      ∀ s ∈ reg, s.name ≠ name)
    ∧ ∀ pre u post, reg = pre ++ u :: post → u.name = name →
        (∀ s ∈ pre, s.name ≠ name) → GetByName name reg = .ok u := by
  refine ⟨getByName_error_iff name reg, ?_⟩
  intro pre u post hsplit hu hpre
  subst hsplit
  exact getByName_found pre u post hu hpre

/-- Witness for C4 on a concrete registry holding two seeders named `b`:
lookup of `b` returns the earliest-registered one (`sB`, registered before
`sB2`, even though `sB2` is not later in sorted order), and lookup of a name
never registered returns the not-found error. -/
theorem getByName_spec_witness :
    GetByName "b" [sC, sB, sB2] = .ok sB ∧
      GetByName "zz" [sC, sB, sB2] = .error ("seeder not found: " ++ "zz") := by
  constructor
  · exact (getByName_spec "b" [sC, sB, sB2]).2 [sC] sB [sB2] rfl rfl
      (by intro s hs; rw [List.mem_singleton] at hs; subst hs; decide)
  · exact ((getByName_spec "zz" [sC, sB, sB2]).1).mpr
      (by
        intro s hs
        simp only [List.mem_cons, List.not_mem_nil, or_false] at hs
        rcases hs with rfl | rfl | rfl <;> decide)

/-- C6: `SeederError.Error` renders `seeder {name} failed: {cause}`;
`SeederErrors.Error` renders `no errors` on an empty collection, the single
failure's message on a singleton, and for two or more failures
`{N} seeders failed: {first.SeederName} (and {N-1} more)` using the
first-recorded failure's name. -/
theorem errorMessage_spec :
    (∀ n c, SeederError.errorMsg ⟨n, c⟩ = "seeder " ++ n ++ " failed: " ++ c)
    ∧ SeederErrors.errorMsg ⟨[]⟩ = "no errors"
    ∧ (∀ e, SeederErrors.errorMsg ⟨[e]⟩ = e.errorMsg)
    ∧ ∀ e0 rest, rest ≠ [] →
        SeederErrors.errorMsg ⟨e0 :: rest⟩ =
          toString (rest.length + 1) ++ " seeders failed: " ++
            e0.seederName ++ " (and " ++ toString rest.length ++ " more)" := by
  refine ⟨fun n c => rfl, rfl, fun e => rfl, ?_⟩
  intro e0 rest h
  cases rest with
  | nil => exact absurd rfl h
  | cons a t => rfl

/-- Witness for C6: the messages evaluated on concrete failures, including a
two-failure collection whose first-recorded name (`b`) is not the
alphabetically first. -/
theorem errorMessage_spec_witness :
    SeederError.errorMsg ⟨"b", "boom"⟩ = "seeder b failed: boom"
    ∧ SeederErrors.errorMsg ⟨[⟨"b", "boom"⟩, ⟨"a", "x"⟩]⟩ =
        "2 seeders failed: b (and 1 more)" := by
  constructor
  · exact errorMessage_spec.1 "b" "boom"
  · have h := errorMessage_spec.2.2.2 ⟨"b", "boom"⟩ [⟨"a", "x"⟩] (by simp)
    rw [h]
    decide

/-- Counterexample for C7: `SeederErrors` declares no `Unwrap` method, so
Go's `errors.Unwrap` on a one-element failure set wrapping cause `boom`
yields nil, not the wrapped cause. -/
theorem seederErrors_unwrap_counterexample :
    PkgError.unwrap (.multi ⟨[⟨"a", "boom"⟩]⟩) ≠ some "boom"
    ∧ PkgError.unwrap (.multi ⟨[⟨"a", "boom"⟩]⟩) = none := by
  exact ⟨by decide, rfl⟩

/-- C7 amended: `SeederError` supports unwrapping — its `Unwrap` method
returns the wrapped cause.  `SeederErrors` declares no `Unwrap` method, so
unwrapping it yields nothing; its causes are reachable only through its
`Errors` field. -/
theorem unwrap_spec :
    (∀ n c, PkgError.unwrap (.single ⟨n, c⟩) = some c ∧
      SeederError.unwrap ⟨n, c⟩ = c)
    ∧ (∀ es, PkgError.unwrap (.multi es) = none)
    ∧ ∀ m, PkgError.unwrap (.plain m) = none :=
  ⟨fun _ _ => ⟨rfl, rfl⟩, fun _ => rfl, fun _ => rfl⟩

/-- C8: `Count` equals the number of `Register` calls since the last `Clear`
(or since creation when no `Clear` occurred): `Register` never fails and
adds exactly one, `Clear` resets the count to zero, and no other API call
changes it. -/
theorem count_spec :
    (∀ (s : Seeder DB Deps) (reg : List (Seeder DB Deps)),
      Count (Register s reg) = Count reg + 1)
    ∧ (∀ reg : List (Seeder DB Deps), Count (Clear reg) = 0)
    ∧ ∀ (ops : List (RegOp DB Deps)) (reg : List (Seeder DB Deps)),
        Count (applyOps ops reg) = countSinceClear ops (Count reg) := by
  refine ⟨fun s reg => by simp [Count, Register], fun reg => rfl, ?_⟩
  intro ops
  induction ops with
  | nil => intro reg; rfl
  | cons op rest ih =>
    intro reg
    cases op with
    | register s =>
      have h := ih (Register s reg)
      simpa [applyOps, applyOp, countSinceClear, Count, Register] using h
    | clear =>
      have h := ih (Clear reg)
      simpa [applyOps, applyOp, countSinceClear, Count, Clear] using h
    | getAll => exact ih reg
    | getByName n => exact ih reg
    | count => exact ih reg
    | runAll db deps => exact ih reg
    | runAllWithOptions db deps opts => exact ih reg
    | runSpecific n db deps => exact ih reg

/-- C9: `RunAll` is `RunAllWithOptions` with `ContinueOnError` false and all
callbacks nil — same trace of `Seed` invocations, same result — and likewise
for the state-passing forms. -/
theorem runAll_spec (db : DB) (deps : Deps) (reg : List (Seeder DB Deps)) :
    RunAll db deps reg = RunAllWithOptions db deps ⟨false, false, false, false⟩ reg
    ∧ RunAllS db deps reg = RunAllWithOptionsS db deps ⟨false, false, false, false⟩ reg :=
  ⟨rfl, rfl⟩

/-- C10: no run or read operation mutates the registry — after `GetAll`,
`GetByName`, `Count`, `RunAll`, `RunAllWithOptions` or `RunSpecific` the
stored sequence is exactly what it was before, whatever the seed results;
every API call other than `Register` and `Clear` leaves the state fixed. -/
theorem registry_frame (db : DB) (deps : Deps) (opts : RunOptions)
    (name : String) (reg : List (Seeder DB Deps)) :
    (GetAllS reg).2 = reg ∧ (GetByNameS name reg).2 = reg
    ∧ (CountS reg).2 = reg
    ∧ (RunAllS db deps reg).2 = reg
    ∧ (RunAllWithOptionsS db deps opts reg).2 = reg
    ∧ (RunSpecificS name db deps reg).2 = reg
    ∧ ∀ op : RegOp DB Deps, (∀ s, op ≠ .register s) → op ≠ .clear →
        applyOp op reg = reg := by
  refine ⟨rfl, rfl, rfl, rfl, rfl, rfl, ?_⟩
  intro op hreg hclear
  cases op with
  | register s => exact absurd rfl (hreg s)
  | clear => exact absurd rfl hclear
  | getAll => rfl
  | getByName n => rfl
  | count => rfl
  | runAll db2 deps2 => rfl
  | runAllWithOptions db2 deps2 opts2 => rfl
  | runSpecific n db2 deps2 => rfl

/-- Witness for C10: a full-callback continue-mode run and a fail-fast run
over a concrete registry with a failing seeder leave the stored sequence
unchanged, and `applyOp` of a lookup is the identity. -/
theorem registry_frame_witness :
    (RunAllWithOptionsS () () ⟨true, true, true, true⟩ [sC, sB, sA]).2 =
        [sC, sB, sA]
    ∧ (RunAllS () () [sC, sB, sA]).2 = [sC, sB, sA]
    ∧ applyOp (.getByName "b" : RegOp Unit Unit) [sC, sB, sA] = [sC, sB, sA] := by
  refine ⟨(registry_frame () () ⟨true, true, true, true⟩ "b" [sC, sB, sA]).2.2.2.2.1,
    (registry_frame () () ⟨true, true, true, true⟩ "b" [sC, sB, sA]).2.2.2.1, ?_⟩
  exact (registry_frame () () ⟨true, true, true, true⟩ "b" [sC, sB, sA]).2.2.2.2.2.2
    (.getByName "b") (fun s => by simp) (by simp)

theorem seedCalls_append (a b : List (Event DB Deps)) :
    seedCalls (a ++ b) = seedCalls a ++ seedCalls b := by
  induction a with
  | nil => rfl
  | cons e rest ih => cases e <;> simp [seedCalls, ih]

theorem startCalls_append (a b : List (Event DB Deps)) :
    startCalls (a ++ b) = startCalls a ++ startCalls b := by
  induction a with
  | nil => rfl
  | cons e rest ih => cases e <;> simp [startCalls, ih]

theorem completeCalls_append (a b : List (Event DB Deps)) :
    completeCalls (a ++ b) = completeCalls a ++ completeCalls b := by
  induction a with
  | nil => rfl
  | cons e rest ih => cases e <;> simp [completeCalls, ih]

theorem errorCalls_append (a b : List (Event DB Deps)) :
    errorCalls (a ++ b) = errorCalls a ++ errorCalls b := by
  induction a with
  | nil => rfl
  | cons e rest ih => cases e <;> simp [errorCalls, ih]

theorem seedCalls_unitEvents (db : DB) (deps : Deps) (opts : RunOptions)
    (s : Seeder DB Deps) : seedCalls (unitEvents db deps opts s) = [s] := by
  rcases opts with ⟨co, st, cp, er⟩
  cases st <;> cases cp <;> cases er <;> cases hs : s.seed db deps <;>
    simp [unitEvents, seedCalls, hs]

theorem seedCalls_flatMap (db : DB) (deps : Deps) (opts : RunOptions)
    (l : List (Seeder DB Deps)) :
    seedCalls (l.flatMap (unitEvents db deps opts)) = l := by
  induction l with
  | nil => rfl
  | cons s rest ih =>
    rw [List.flatMap_cons, seedCalls_append, seedCalls_unitEvents, ih]
    rfl

theorem startCalls_flatMap (db : DB) (deps : Deps) (opts : RunOptions)
    (hst : opts.onSeederStart = true) (l : List (Seeder DB Deps)) :
    startCalls (l.flatMap (unitEvents db deps opts)) = l.map Seeder.name := by
  induction l with
  | nil => rfl
  | cons s rest ih =>
    rw [List.flatMap_cons, startCalls_append, ih]
    rcases opts with ⟨co, st, cp, er⟩
    cases st with
    | false => exact absurd hst (by simp)
    | true =>
      cases cp <;> cases er <;> cases hs : s.seed db deps <;>
        simp [unitEvents, startCalls, hs]

theorem completeCalls_flatMap (db : DB) (deps : Deps) (opts : RunOptions)
    (hcp : opts.onSeederComplete = true) (l : List (Seeder DB Deps)) :
    completeCalls (l.flatMap (unitEvents db deps opts)) =
      (successesOf db deps l).map Seeder.name := by
  induction l with
  | nil => rfl
  | cons s rest ih =>
    rw [List.flatMap_cons, completeCalls_append, ih]
    rcases opts with ⟨co, st, cp, er⟩
    cases cp with
    | false => exact absurd hcp (by simp)
    | true =>
      cases st <;> cases er <;> cases hs : s.seed db deps <;>
        simp [unitEvents, completeCalls, successesOf, List.filter_cons, hs]

theorem errorCalls_flatMap (db : DB) (deps : Deps) (opts : RunOptions)
    (her : opts.onSeederError = true) (l : List (Seeder DB Deps)) :
    errorCalls (l.flatMap (unitEvents db deps opts)) =
      (failuresOf db deps l).map (fun e => (e.seederName, e.err)) := by
  induction l with
  | nil => rfl
  | cons s rest ih =>
    rw [List.flatMap_cons, errorCalls_append, ih]
    rcases opts with ⟨co, st, cp, er⟩
    cases er with
    | false => exact absurd her (by simp)
    | true =>
      cases st <;> cases cp <;> cases hs : s.seed db deps <;>
        simp [unitEvents, errorCalls, failuresOf, List.filterMap_cons, hs]

theorem mkRunResult_eq_ok_iff (fs : List SeederError) :
    mkRunResult fs = RunResult.ok ↔ fs = [] := by
  cases fs <;> simp [mkRunResult]

theorem mkRunResult_of_ne_nil (fs : List SeederError) (h : fs ≠ []) :
    mkRunResult fs = .multi ⟨fs⟩ := by
  cases fs with
  | nil => exact absurd rfl h
  | cons a t => simp [mkRunResult]

theorem runLoop_continue (db : DB) (deps : Deps) (opts : RunOptions)
    (h : opts.continueOnError = true) (l : List (Seeder DB Deps)) :
    ∀ acc : SeederErrors,
    runLoop db deps opts l acc =
      (l.flatMap (unitEvents db deps opts),
        mkRunResult (acc.errors ++ failuresOf db deps l)) := by
  induction l with
  | nil =>
    intro acc
    rcases acc with ⟨errs⟩
    cases errs <;>
      simp [runLoop, mkRunResult, failuresOf, SeederErrors.hasErrors]
  | cons s rest ih =>
    intro acc
    cases hs : s.seed db deps with
    | some cause =>
      rw [show runLoop db deps opts (s :: rest) acc =
          ((if opts.onSeederStart then [Event.start s.name] else []) ++
            .seedCall s ::
              ((if opts.onSeederError then [Event.error s.name cause] else []) ++
                (runLoop db deps opts rest (acc.add s.name cause)).1),
            (runLoop db deps opts rest (acc.add s.name cause)).2) by
        simp [runLoop, hs, h]]
      rw [ih (acc.add s.name cause)]
      simp [unitEvents, hs, SeederErrors.add, failuresOf, List.filterMap_cons]
    | none =>
      rw [show runLoop db deps opts (s :: rest) acc =
          ((if opts.onSeederStart then [Event.start s.name] else []) ++
            .seedCall s ::
              ((if opts.onSeederComplete then [Event.complete s.name] else []) ++
                (runLoop db deps opts rest acc).1),
            (runLoop db deps opts rest acc).2) by
        simp [runLoop, hs]]
      rw [ih acc]
      simp [unitEvents, hs, failuresOf, List.filterMap_cons]

theorem runLoop_failfast (db : DB) (deps : Deps) (opts : RunOptions)
    (h : opts.continueOnError = false) (u : Seeder DB Deps) (cause : String)
    (hu : u.seed db deps = some cause) (post : List (Seeder DB Deps)) :
    ∀ (pre : List (Seeder DB Deps)) (acc : SeederErrors),
    (∀ s ∈ pre, s.seed db deps = none) →
    runLoop db deps opts (pre ++ u :: post) acc =
      (pre.flatMap (unitEvents db deps opts) ++ unitEvents db deps opts u,
        .single ⟨u.name, cause⟩) := by
  intro pre
  induction pre with
  | nil =>
    intro acc _
    simp [runLoop, hu, h, unitEvents]
  | cons p pre ih =>
    intro acc hpre
    have hp : p.seed db deps = none := hpre p (by simp)
    rw [show runLoop db deps opts ((p :: pre) ++ u :: post) acc =
        ((if opts.onSeederStart then [Event.start p.name] else []) ++
          .seedCall p ::
            ((if opts.onSeederComplete then [Event.complete p.name] else []) ++
              (runLoop db deps opts (pre ++ u :: post) acc).1),
          (runLoop db deps opts (pre ++ u :: post) acc).2) by
      simp [runLoop, hp]]
    rw [ih acc (fun s hs => hpre s (List.mem_cons_of_mem _ hs))]
    simp [unitEvents, hp, List.append_assoc]

/-- C1: in a fail-fast run (`ContinueOnError` false) over the sorted
snapshot, if every unit before `u` succeeds and `u`'s seed fails with
`cause`, then the run's trace is exactly the events of the preceding units
followed by `u`'s events — so no later unit's `Seed`, `OnSeederStart` or
`OnSeederComplete` is ever invoked — the seeds invoked are exactly the
preceding units and `u` once each, `OnSeederError` (when set) is invoked for
`u`, and the result is the `SeederError` for exactly `u`. -/
theorem runAllWithOptions_failFast_spec (db : DB) (deps : Deps)
    (opts : RunOptions) (reg pre post : List (Seeder DB Deps))
    (u : Seeder DB Deps) (cause : String)
    (hopts : opts.continueOnError = false)
    (hsplit : GetAll reg = pre ++ u :: post)
    (hpre : ∀ s ∈ pre, s.seed db deps = none)
    (hu : u.seed db deps = some cause) :
    RunAllWithOptions db deps opts reg =
      (pre.flatMap (unitEvents db deps opts) ++ unitEvents db deps opts u,
        .single ⟨u.name, cause⟩)
    ∧ seedCalls (RunAllWithOptions db deps opts reg).1 = pre ++ [u]
    ∧ (opts.onSeederError = true →
        Event.error u.name cause ∈ (RunAllWithOptions db deps opts reg).1) := by
  have hmain : RunAllWithOptions db deps opts reg =
      (pre.flatMap (unitEvents db deps opts) ++ unitEvents db deps opts u,
        .single ⟨u.name, cause⟩) := by
    unfold RunAllWithOptions
    rw [hsplit]
    exact runLoop_failfast db deps opts hopts u cause hu post pre ⟨[]⟩ hpre
  refine ⟨hmain, ?_, ?_⟩
  · rw [hmain]
    simp only [seedCalls_append, seedCalls_flatMap, seedCalls_unitEvents]
  · intro her
    rw [hmain]
    apply List.mem_append_right
    rcases opts with ⟨co, st, cp, er⟩
    cases st <;> simp_all [unitEvents, hu]

/-- Witness for C1: fail-fast run with all callbacks set over the registry
`[sC, sB, sA]` (sorted snapshot `a`, `b`, `c` with `b` failing): the trace
stops at `b`'s error, `c` is never started or seeded, and the result is the
single failure for `b`. -/
theorem runAllWithOptions_failFast_witness :
    RunAllWithOptions () () ⟨false, true, true, true⟩ [sC, sB, sA] =
      ([.start "a", .seedCall sA, .complete "a", .start "b", .seedCall sB,
        .error "b" "boom"], .single ⟨"b", "boom"⟩) := by
  have h := runAllWithOptions_failFast_spec () () ⟨false, true, true, true⟩
    [sC, sB, sA] [sA] [sC] sB "boom" rfl rfl
    (by intro s hs; rw [List.mem_singleton] at hs; subst hs; rfl) rfl
  rw [h.1]
  rfl

/-- C2: in a continue-on-error run the trace is exactly the concatenation of
every sorted unit's events, so every unit's `Seed` runs exactly once in
ascending-name order whatever fails; `OnSeederStart` (when set) is invoked
for every unit, `OnSeederComplete` exactly for the units whose seed
succeeded, `OnSeederError` exactly for the units whose seed failed; the
result is nil exactly when no unit failed, and otherwise the `SeederErrors`
holding exactly one `SeederError` per failing unit in execution order. -/
theorem runAllWithOptions_continue_spec (db : DB) (deps : Deps)
    (opts : RunOptions) (reg : List (Seeder DB Deps))
    (h : opts.continueOnError = true) :
    RunAllWithOptions db deps opts reg =
      ((GetAll reg).flatMap (unitEvents db deps opts),
        mkRunResult (failuresOf db deps (GetAll reg)))
    ∧ seedCalls (RunAllWithOptions db deps opts reg).1 = GetAll reg
    ∧ (opts.onSeederStart = true →
        startCalls (RunAllWithOptions db deps opts reg).1 =
          (GetAll reg).map Seeder.name)
    ∧ (opts.onSeederComplete = true →
        completeCalls (RunAllWithOptions db deps opts reg).1 =
          (successesOf db deps (GetAll reg)).map Seeder.name)
    ∧ (opts.onSeederError = true →
        errorCalls (RunAllWithOptions db deps opts reg).1 =
          (failuresOf db deps (GetAll reg)).map (fun e => (e.seederName, e.err)))
    ∧ (failuresOf db deps (GetAll reg) = [] ↔
        (RunAllWithOptions db deps opts reg).2 = RunResult.ok)
    ∧ (failuresOf db deps (GetAll reg) ≠ [] →
        (RunAllWithOptions db deps opts reg).2 =
          .multi ⟨failuresOf db deps (GetAll reg)⟩) := by
  have hmain : RunAllWithOptions db deps opts reg =
      ((GetAll reg).flatMap (unitEvents db deps opts),
        mkRunResult (failuresOf db deps (GetAll reg))) := by
    unfold RunAllWithOptions
    rw [runLoop_continue db deps opts h (GetAll reg) ⟨[]⟩]
    simp
  refine ⟨hmain, ?_, ?_, ?_, ?_, ?_, ?_⟩
  · rw [hmain]; exact seedCalls_flatMap db deps opts (GetAll reg)
  · intro hst; rw [hmain]; exact startCalls_flatMap db deps opts hst (GetAll reg)
  · intro hcp; rw [hmain]
    exact completeCalls_flatMap db deps opts hcp (GetAll reg)
  · intro her; rw [hmain]; exact errorCalls_flatMap db deps opts her (GetAll reg)
  · rw [hmain]; exact (mkRunResult_eq_ok_iff _).symm
  · intro hne; rw [hmain]; exact mkRunResult_of_ne_nil _ hne

/-- Witness for C2: continue-on-error run with all callbacks set over the
registry `[sC, sB, sA]`: all three seeds run in order `a`, `b`, `c`,
`OnSeederComplete` fires for `a` and `c`, `OnSeederError` fires for `b`, and
the result is the failure set holding exactly `b`'s failure. -/
theorem runAllWithOptions_continue_witness :
    RunAllWithOptions () () ⟨true, true, true, true⟩ [sC, sB, sA] =
      ([.start "a", .seedCall sA, .complete "a", .start "b", .seedCall sB,
        .error "b" "boom", .start "c", .seedCall sC, .complete "c"],
        .multi ⟨[⟨"b", "boom"⟩]⟩)
    ∧ completeCalls (RunAllWithOptions () () ⟨true, true, true, true⟩
        [sC, sB, sA]).1 = ["a", "c"]
    ∧ errorCalls (RunAllWithOptions () () ⟨true, true, true, true⟩
        [sC, sB, sA]).1 = [("b", "boom")]
    ∧ startCalls (RunAllWithOptions () () ⟨true, true, true, true⟩
        [sC, sB, sA]).1 = ["a", "b", "c"] := by
  have h := runAllWithOptions_continue_spec () () ⟨true, true, true, true⟩
    [sC, sB, sA] rfl
  refine ⟨?_, ?_, ?_, ?_⟩
  · rw [h.1]; rfl
  · rw [h.2.2.2.1 rfl]; rfl
  · rw [h.2.2.2.2.1 rfl]; rfl
  · rw [h.2.2.1 rfl]; rfl

/-- C5: `RunSpecific` of an unregistered name returns the lookup's not-found
error with no `Seed` call at all; of a registered name it invokes the
earliest-registered matching unit's seed exactly once, returning nil on
success and the `SeederError` wrapping the unit's cause on failure; and on
every path its trace holds only `Seed` calls — none of the lifecycle
callbacks is ever invoked. -/
theorem runSpecific_spec (name : String) (db : DB) (deps : Deps)
    (reg : List (Seeder DB Deps)) :
    ((∀ s ∈ reg, s.name ≠ name) →
      RunSpecific name db deps reg =
        ([], .notFound ("seeder not found: " ++ name)))
    ∧ (∀ pre u post, reg = pre ++ u :: post → u.name = name →
        (∀ s ∈ pre, s.name ≠ name) →
        (u.seed db deps = none →
          RunSpecific name db deps reg = ([.seedCall u], .ok))
        ∧ ∀ cause, u.seed db deps = some cause →
            RunSpecific name db deps reg =
              ([.seedCall u], .failed ⟨u.name, cause⟩))
    ∧ ∀ e ∈ (RunSpecific name db deps reg).1, ∃ s, e = Event.seedCall s := by
  refine ⟨?_, ?_, ?_⟩
  · intro hnone
    simp only [RunSpecific, (getByName_error_iff name reg).mpr hnone]
  · intro pre u post hsplit hu hpre
    subst hsplit
    have hfound := getByName_found pre u post hu hpre
    constructor
    · intro hseed
      simp only [RunSpecific, hfound, hseed]
    · intro cause hseed
      simp only [RunSpecific, hfound, hseed]
  · intro e he
    cases hg : GetByName name reg with
    | error m =>
      simp only [RunSpecific, hg] at he
      simp at he
    | ok s =>
      simp only [RunSpecific, hg] at he
      cases hs : s.seed db deps with
      | some c =>
        simp only [hs, List.mem_singleton] at he
        exact ⟨s, he⟩
      | none =>
        simp only [hs, List.mem_singleton] at he
        exact ⟨s, he⟩

/-- Witness for C5 on the registry `[sC, sB, sA]`: an unregistered name
yields the not-found error with an empty trace, the failing seeder `b`
yields the wrapping `SeederError` after exactly one seed call, and the
succeeding seeder `a` yields nil after exactly one seed call. -/
theorem runSpecific_spec_witness :
    RunSpecific "zz" () () [sC, sB, sA] =
      ([], .notFound ("seeder not found: " ++ "zz"))
    ∧ RunSpecific "b" () () [sC, sB, sA] =
        ([.seedCall sB], .failed ⟨"b", "boom"⟩)
    ∧ RunSpecific "a" () () [sC, sB, sA] = ([.seedCall sA], .ok) := by
  refine ⟨(runSpecific_spec "zz" () () [sC, sB, sA]).1
      (by
        intro s hs
        simp only [List.mem_cons, List.not_mem_nil, or_false] at hs
        rcases hs with rfl | rfl | rfl <;> decide), ?_, ?_⟩
  · have h := (runSpecific_spec "b" () () [sC, sB, sA]).2.1 [sC] sB [sA] rfl rfl
      (by intro s hs; rw [List.mem_singleton] at hs; subst hs; decide)
    exact h.2 "boom" rfl
  · have h := (runSpecific_spec "a" () () [sC, sB, sA]).2.1 [sC, sB] sA [] rfl rfl
      (by
        intro s hs
        simp only [List.mem_cons, List.not_mem_nil, or_false] at hs
        rcases hs with rfl | rfl <;> decide)
    exact h.1 rfl
